import Mathlib

/-!
Shallow embedding of the SmartBuffer subsystem
(src/Libraries/SmartBuffer/SmartBuffer.h) of the Engine repository.

The header declares the data model (buffers, locations, fixups) and defines a
number of member functions inline; those inline bodies are translated here
directly.  The out-of-line implementation file (SmartBuffer.cpp) is not part of
the sources, so the operations it defines (Append, AddFixup, AddOffsetFixup,
AddPointerFixup, AddVTableFixup, AdoptBuffer, CollectChildren, and the
flattening writer) are modelled from the specification, as recorded in each
definition's doc comment.

Machine integers (u32) are modelled as Nat; buffer identity (the C++ `this`
pointer) is modelled as a Nat id; reference-counted pointers become ids, with
`Option Nat` standing for a possibly-null SmartBufferPtr.  A NOC_ASSERT firing
is modelled as a distinguished `assertViolation` result, kept separate from the
recoverable boolean-failure return paths of the fixup API.
-/

namespace SmartBufferModel

/-- From the header: BufferPlatforms enumerates x86 (little endian, 32-bit
pointers) and Power32 (big endian, 32-bit pointers); Count = 2.  The stored
platform is modelled as a raw Nat since the C++ enum can hold any integral
value cast into it. -/
def BufferPlatformsCount : Nat := 2

/-- From the header comments: both platforms use 32-bit (4 byte) pointers.
The table has BufferPlatforms::Count entries; indexing is by the stored
platform value, and an out-of-range index is modelled by Option. -/
def s_PointerSizes : List Nat := [4, 4]

/-- From the header comments: x86 is little endian, Power32 is big endian. -/
def s_BigEndian : List Bool := [false, true]

/-- Fixup variants, per the header and spec: an offset fixup (with an
`absolute` flag), a pointer fixup (with an optional size override), and a
vtable fixup (class index plus optional size override).  Offset and pointer
fixups carry a destination location (offset, destination buffer id); vtable
fixups have no destination buffer. -/
inductive Fixup where
  | offsetFix (absolute : Bool) (destOffset : Nat) (destBuf : Nat)
  | pointerFix (size : Nat) (destOffset : Nat) (destBuf : Nat)
  | vtableFix (classIndex : Nat) (size : Nat)
deriving DecidableEq, Repr

/-- The destination buffer id of a fixup, none for vtable fixups. -/
def Fixup.destBuffer : Fixup → Option Nat
  | .offsetFix _ _ d => some d
  | .pointerFix _ _ d => some d
  | .vtableFix _ _ => none

/-- From the header: Location is a pair of a u32 offset and a SmartBufferPtr.
The pointer may be null, modelled by `none`. -/
structure Location where
  offset : Nat
  buffer : Option Nat
deriving DecidableEq, Repr

/-- A SmartBuffer: name, type tag, byte data, optional declared maximum size,
platform tag, virtual-memory flag, outgoing fixup table (offset → fixup, as an
association list with unique keys) and incoming fixup set (a set of
DumbLocation pairs: byte offset in the referencing buffer, referencing buffer
id).  The id models object identity (the C++ `this` pointer). -/
structure Buffer where
  id : Nat
  name : String := ""
  type : Nat := 0
  data : List Nat := []
  maxSize : Option Nat := none
  platform : Nat := 1
  virtualMem : Bool := false
  outgoing : List (Nat × Fixup) := []
  incoming : List (Nat × Nat) := []
deriving DecidableEq, Repr

/-- m_Size: the current size of the buffer, the length of its data. -/
def Buffer.size (b : Buffer) : Nat := b.data.length

/-- A buffer graph: the set of live SmartBuffer objects, keyed by identity. -/
def findBuffer (st : List Buffer) (i : Nat) : Option Buffer :=
  st.find? (fun b => b.id == i)

/-- Update the buffer with the given id, leaving all other buffers unchanged. -/
def updateBuffer (st : List Buffer) (i : Nat) (f : Buffer → Buffer) : List Buffer :=
  st.map (fun b => if b.id = i then f b else b)

/-- Result of a header call that either returns a Location or trips a
NOC_ASSERT.  The `outOfRange` constructor exists so that the specification's
claimed recoverable OutOfRange failure result is statable against the code;
the translated code never produces it. -/
inductive LocResult where
  | ok (loc : Location)
  | outOfRange
  | assertViolation
deriving DecidableEq, Repr

/-- Result of SetPlatform, which can only trip its NOC_ASSERT. -/
inductive AssertResult (α : Type) where
  | ok (a : α)
  | assertViolation
deriving DecidableEq, Repr

/-- From the header (inline): GetSize returns m_Size. -/
def GetSize (b : Buffer) : Nat := b.size

/-- From the header (inline): GetType returns m_Type. -/
def GetType (b : Buffer) : Nat := b.type

/-- From the header (inline): GetPlatform returns m_Platform. -/
def GetPlatform (b : Buffer) : Nat := b.platform

/-- From the header (inline): SetPlatform asserts that the pre-existing
m_Platform field (not the argument) is in range, then stores the argument
unconditionally.  The C++ assert also checks m_Platform >= 0, which is
trivially true for the Nat model. -/
def SetPlatform (b : Buffer) (p : Nat) : AssertResult Buffer :=
  if b.platform < BufferPlatformsCount then .ok { b with platform := p }
  else .assertViolation

/-- From the header (inline): GetPlatformPtrSize indexes s_PointerSizes with
m_Platform; an out-of-bounds index (undefined behaviour in C++) is none. -/
def GetPlatformPtrSize (b : Buffer) : Option Nat :=
  s_PointerSizes.get? b.platform

/-- From the header (inline): IsPlatformBigEndian indexes s_BigEndian with
m_Platform; an out-of-bounds index (undefined behaviour in C++) is none. -/
def IsPlatformBigEndian (b : Buffer) : Option Bool :=
  s_BigEndian.get? b.platform

/-- From the header (inline): GetHeadLocation returns Location(0, this). -/
def GetHeadLocation (b : Buffer) : Location := ⟨0, some b.id⟩

/-- From the header (inline): GetCurrentLocation returns Location(m_Size, this). -/
def GetCurrentLocation (b : Buffer) : Location := ⟨b.size, some b.id⟩

/-- From the header (inline): GetOffsetLocation asserts offset <= m_Size and
returns Location(offset, this).  Its return type is Location; there is no
recoverable failure path, only the NOC_ASSERT. -/
def GetOffsetLocation (b : Buffer) (offset : Nat) : LocResult :=
  if offset ≤ b.size then .ok ⟨offset, some b.id⟩ else .assertViolation

/-- Outcome of an operation that returns a C++ bool and may mutate the buffer
graph, or trip a NOC_ASSERT: success carries the state after the mutation,
failure (returned false) carries the unchanged state. -/
inductive OpOutcome where
  | success (st : List Buffer)
  | failure (st : List Buffer)
  | assertViolation
deriving DecidableEq, Repr

/-- Modelled from the spec: the outgoing-fixup table (M_OffsetToFixup, a map
from byte offset to fixup) keeps at most one fixup per offset; a later fixup
registered at the same offset replaces the earlier one (last write wins).
Implementation detail (SmartBuffer.cpp) is missing from the sources; this is
an association-list map with replace-or-append insertion. -/
def mapInsert (m : List (Nat × Fixup)) (k : Nat) (v : Fixup) : List (Nat × Fixup) :=
  match m with
  | [] => [(k, v)]
  | (k', v') :: rest => if k' = k then (k, v) :: rest else (k', v') :: mapInsert rest k v

/-- Lookup in the outgoing-fixup table. -/
def mapLookup (m : List (Nat × Fixup)) (k : Nat) : Option Fixup :=
  match m with
  | [] => none
  | (k', v') :: rest => if k' = k then some v' else mapLookup rest k

/-- Modelled from the spec: the incoming-fixup container is an OrderedSet of
DumbLocation pairs, so insertion de-duplicates while keeping order. -/
def setInsert (s : List (Nat × Nat)) (x : Nat × Nat) : List (Nat × Nat) :=
  if x ∈ s then s else s ++ [x]

/-- Modelled from the spec: AddFixup (whose body is in the missing
SmartBuffer.cpp) records the fixup in the source buffer's outgoing table keyed
by the source offset, and appends the (source offset, source buffer)
DumbLocation into the destination buffer's incoming set; vtable fixups have no
destination buffer and touch no incoming set. -/
def AddFixup (st : List Buffer) (srcOff srcBuf : Nat) (f : Fixup) : List Buffer :=
  let st' := updateBuffer st srcBuf
    (fun b => { b with outgoing := mapInsert b.outgoing srcOff f })
  match f.destBuffer with
  | none => st'
  | some d => updateBuffer st' d
      (fun b => { b with incoming := setInsert b.incoming (srcOff, srcBuf) })

/-- Modelled from the spec: AddOffsetFixup returns false (a recoverable
failure, leaving the graph unchanged) when the destination's buffer is not a
live buffer (a null pointer or an object not in the graph); it asserts on
invalid input, namely when the source location has no live buffer or its
offset is out of range for that buffer (the spec invariant requires every
outgoing fixup's source offset to be below the current size); otherwise it
links source to destination through AddFixup and returns true. -/
def AddOffsetFixup (st : List Buffer) (source destination : Location)
    (absolute : Bool) : OpOutcome :=
  match destination.buffer with
  | none => .failure st
  | some d =>
    if (findBuffer st d).isNone then .failure st
    else
      match source.buffer with
      | none => .assertViolation
      | some s =>
        match findBuffer st s with
        | none => .assertViolation
        | some sb =>
          if source.offset < sb.size then
            .success (AddFixup st source.offset s (.offsetFix absolute destination.offset d))
          else .assertViolation

/-- Modelled from the spec: AddPointerFixup behaves like AddOffsetFixup but
records a pointer fixup with an optional size override. -/
def AddPointerFixup (st : List Buffer) (source destination : Location)
    (size : Nat) : OpOutcome :=
  match destination.buffer with
  | none => .failure st
  | some d =>
    if (findBuffer st d).isNone then .failure st
    else
      match source.buffer with
      | none => .assertViolation
      | some s =>
        match findBuffer st s with
        | none => .assertViolation
        | some sb =>
          if source.offset < sb.size then
            .success (AddFixup st source.offset s (.pointerFix size destination.offset d))
          else .assertViolation

/-- Modelled from the spec: AddVTableFixup records a class index at the source
location; it has no destination buffer, so no incoming-fixup set is touched.
It asserts on invalid input like the other registration calls. -/
def AddVTableFixup (st : List Buffer) (source : Location)
    (classIndex size : Nat) : OpOutcome :=
  match source.buffer with
  | none => .assertViolation
  | some s =>
    match findBuffer st s with
    | none => .assertViolation
    | some sb =>
      if source.offset < sb.size then
        .success (AddFixup st source.offset s (.vtableFix classIndex size))
      else .assertViolation

/-- Modelled from the spec: Append writes the given bytes at the current end
of the buffer and advances the size, growing storage as needed.  Growth-limit
failures belong to GrowBy in the spec and are not part of Append's contract. -/
def Append (b : Buffer) (bytes : List Nat) : Buffer :=
  { b with data := b.data ++ bytes }

/-- A finite sequence of Append calls on one buffer. -/
def AppendSeq (b : Buffer) (calls : List (List Nat)) : Buffer :=
  calls.foldl Append b

/-- Re-home a fixup's destination after bId's bytes were appended at offset
`shift` inside aId: destinations inside the adopted buffer move to the
combined buffer at shifted offsets; other destinations are unchanged. -/
def Fixup.rehomeDest (f : Fixup) (bId aId shift : Nat) : Fixup :=
  match f with
  | .offsetFix abs dOff d =>
      if d = bId then .offsetFix abs (shift + dOff) aId else f
  | .pointerFix sz dOff d =>
      if d = bId then .pointerFix sz (shift + dOff) aId else f
  | .vtableFix ci sz => .vtableFix ci sz

/-- Shift the source offsets of an outgoing-fixup table by `shift` and re-home
destinations that pointed into the adopted buffer. -/
def shiftOutgoing (out : List (Nat × Fixup)) (shift bId aId : Nat) :
    List (Nat × Fixup) :=
  out.map (fun p => (shift + p.1, p.2.rehomeDest bId aId shift))

/-- Re-home one incoming DumbLocation entry: a referrer that was the adopted
buffer itself becomes the combined buffer, with its source offset shifted. -/
def rehomeIncomingEntry (e : Nat × Nat) (shift bId aId : Nat) : Nat × Nat :=
  if e.2 = bId then (shift + e.1, aId) else e

/-- Modelled from the spec: AdoptBuffer (body in the missing SmartBuffer.cpp)
merges the other buffer's bytes onto the end of this buffer and re-homes all
of the other buffer's outgoing and incoming fixups to the combined buffer at
shifted offsets; every fixup in the rest of the graph whose destination was
the adopted buffer is re-homed as well, and the adopted buffer is left empty
(its data and both fixup tables cleared).  It returns false (failure) if the
other buffer is virtual or if merging would exceed this buffer's declared
maximum size; adopting a buffer into itself is also rejected.  A null or dead
buffer id is invalid input and asserts. -/
def AdoptBuffer (st : List Buffer) (aId bId : Nat) : OpOutcome :=
  match findBuffer st aId, findBuffer st bId with
  | some a, some b =>
    if aId = bId then .failure st
    else if b.virtualMem then .failure st
    else if (match a.maxSize with
             | some m => decide (m < a.size + b.size)
             | none => false) then .failure st
    else
      .success (st.map (fun c =>
        if c.id = aId then
          { c with
            data := a.data ++ b.data,
            outgoing :=
              a.outgoing.map (fun p => (p.1, p.2.rehomeDest bId aId a.size))
                ++ shiftOutgoing b.outgoing a.size bId aId,
            incoming :=
              a.incoming.map (fun e => rehomeIncomingEntry e a.size bId aId)
                ++ b.incoming.map (fun e => rehomeIncomingEntry e a.size bId aId) }
        else if c.id = bId then
          { c with data := [], outgoing := [], incoming := [] }
        else
          { c with
            outgoing := c.outgoing.map (fun p => (p.1, p.2.rehomeDest bId aId a.size)) }))
  | _, _ => .assertViolation

/-- The ids of the buffers this buffer's outgoing fixups point to. -/
def Buffer.childIds (b : Buffer) : List Nat :=
  b.outgoing.filterMap (fun p => p.2.destBuffer)

/-- The ids reachable in one step from buffer i through its outgoing fixups. -/
def children (st : List Buffer) (i : Nat) : List Nat :=
  match findBuffer st i with
  | none => []
  | some b => b.childIds

/-- One round of the traversal: keep the already collected buffers and add
every buffer referenced by an outgoing fixup of a collected buffer. -/
def expand (st : List Buffer) (s : Finset Nat) : Finset Nat :=
  s ∪ s.biUnion (fun i => (children st i).toFinset)

/-- Iterated rounds of the traversal. -/
def expandIter (st : List Buffer) : Nat → Finset Nat → Finset Nat
  | 0, s => s
  | n + 1, s => expand st (expandIter st n s)

/-- Every buffer id that can occur during the traversal: the ids of the live
buffers together with every destination id mentioned by an outgoing fixup. -/
def idUniverse (st : List Buffer) : Finset Nat :=
  (st.map Buffer.id).toFinset ∪ (st.map Buffer.childIds).flatten.toFinset

/-- Modelled from the spec: CollectChildren traverses the graph starting from
this buffer's outgoing fixups, adding every buffer reachable directly or
transitively to the given set; reached buffers are de-duplicated by identity
so cycles terminate.  The traversal is modelled as a closure iteration whose
bound exceeds the number of distinct buffer ids, which suffices to reach the
fixpoint. -/
def CollectChildren (st : List Buffer) (start : Nat) (acc : Finset Nat) :
    Finset Nat :=
  acc ∪ expandIter st ((idUniverse st).card + 1) (children st start).toFinset

/-- Transitive reachability from a starting buffer's outgoing fixups. -/
inductive Reaches (st : List Buffer) (start : Nat) : Nat → Prop where
  | direct {j : Nat} : j ∈ children st start → Reaches st start j
  | step {i j : Nat} : Reaches st start i → j ∈ children st i → Reaches st start j

/-- Modelled from the spec: the flattening writer assigns each buffer a final
base offset in the single output image by laying the buffers out in order and
accumulating sizes. -/
def layoutFrom (base : Nat) : List Buffer → List (Nat × Nat)
  | [] => []
  | b :: rest => (b.id, base) :: layoutFrom (base + b.size) rest

/-- The layout mapping buffer id to final base offset, starting at base 0. -/
def layout (bufs : List Buffer) : List (Nat × Nat) := layoutFrom 0 bufs

/-- The base assigned to a buffer id by a layout. -/
def baseOf (lay : List (Nat × Nat)) (i : Nat) : Option Nat :=
  (lay.find? (fun p => p.1 == i)).map Prod.snd

/-- Modelled from the spec: the resolved value of a fixup whose source lies at
srcBase + srcOff.  An offset fixup resolves to (destinationBase +
destinationOffset) minus, if not absolute, (sourceBase + sourceOffset); a
pointer fixup resolves to the destination's final address; a vtable fixup
writes its class index verbatim.  A destination buffer missing from the
layout is the UnresolvedReference failure, modelled by none. -/
def resolveFixup (lay : List (Nat × Nat)) (srcBase srcOff : Nat) :
    Fixup → Option Int
  | .offsetFix abs dOff d =>
      (baseOf lay d).map (fun dBase =>
        ((dBase + dOff : Nat) : Int) - (if abs then 0 else ((srcBase + srcOff : Nat) : Int)))
  | .pointerFix _ dOff d =>
      (baseOf lay d).map (fun dBase => ((dBase + dOff : Nat) : Int))
  | .vtableFix ci _ => some (ci : Int)

/-- Modelled from the spec: for one buffer, the flattening pass emits, for
every outgoing fixup at offset o, the resolved value at output position
sourceBase + o. -/
def bufferWrites (lay : List (Nat × Nat)) (b : Buffer) :
    List (Nat × Option Int) :=
  match baseOf lay b.id with
  | none => []
  | some sBase => b.outgoing.map (fun p => (sBase + p.1, resolveFixup lay sBase p.1 p.2))

/-- Modelled from the spec: the whole flattening pass resolves every outgoing
fixup of every buffer against the computed layout. -/
def flattenWrites (bufs : List Buffer) : List (Nat × Option Int) :=
  (bufs.map (bufferWrites (layout bufs))).flatten

/-! Concrete instances used by witnesses and counterexamples. -/

/-- An empty buffer with id 0. -/
def cexBuf : Buffer := { id := 0 }

/-- A buffer with one byte of data, id 7. -/
def oneByteBuf : Buffer := { id := 7, data := [0] }

/-- The effect of AddFixup on a single buffer of the graph: the source buffer
gets the fixup inserted into its outgoing table, and the destination buffer
(when the fixup has one) gets the DumbLocation entry inserted into its
incoming set.  AddFixup is the map of this transform over the graph. -/
def addFixupTransform (srcOff s : Nat) (f : Fixup) (b : Buffer) : Buffer :=
  let b1 := if b.id = s then { b with outgoing := mapInsert b.outgoing srcOff f } else b
  match f.destBuffer with
  | none => b1
  | some d =>
    if b1.id = d then { b1 with incoming := setInsert b1.incoming (srcOff, s) } else b1

/-- The cross-buffer bookkeeping invariant: every outgoing fixup that has a
destination buffer finds that buffer live, and the destination's incoming set
records the referrer as the (source offset, referencing buffer) pair. -/
def IncomingInvariant (st : List Buffer) : Prop :=
  ∀ a ∈ st, ∀ p ∈ a.outgoing, ∀ d : Nat, (p.2).destBuffer = some d →
    ∃ bd, findBuffer st d = some bd ∧ (p.1, a.id) ∈ bd.incoming

/-- States reachable through the fixup-registration API (and Append, which
does not touch fixup tables) from a state whose fixup tables are all empty. -/
inductive ReachableState : List Buffer → Prop where
  | init (st : List Buffer)
      (h : ∀ b ∈ st, b.outgoing = [] ∧ b.incoming = []) : ReachableState st
  | addOffset (st st' : List Buffer) (source destination : Location) (absolute : Bool)
      (h : ReachableState st)
      (hs : AddOffsetFixup st source destination absolute = .success st') :
      ReachableState st'
  | addPointer (st st' : List Buffer) (source destination : Location) (size : Nat)
      (h : ReachableState st)
      (hs : AddPointerFixup st source destination size = .success st') :
      ReachableState st'
  | addVTable (st st' : List Buffer) (source : Location) (classIndex size : Nat)
      (h : ReachableState st)
      (hs : AddVTableFixup st source classIndex size = .success st') :
      ReachableState st'
  | appendData (st : List Buffer) (i : Nat) (bytes : List Nat)
      (h : ReachableState st) :
      ReachableState (updateBuffer st i (fun b => Append b bytes))

/-- A 3-byte buffer with id 0, used as a fixup source. -/
def srcBuf3 : Buffer := { id := 0, data := [0, 0, 0] }

/-- A 1-byte buffer with id 1, used as a fixup destination. -/
def dstBuf1 : Buffer := { id := 1, data := [0] }

/-- A two-buffer graph for exercising the fixup-registration calls. -/
def stPair : List Buffer := [srcBuf3, dstBuf1]

/-- The 100-byte buffer A of the adoption scenario. -/
def bufA100 : Buffer := { id := 0, data := List.replicate 100 0 }

/-- The 50-byte buffer B of the adoption scenario, with a fixup recorded at
offset 10 (a pointer fixup into A). -/
def bufB50 : Buffer :=
  { id := 1, data := List.replicate 50 0,
    outgoing := [(10, .pointerFix 0 5 0)] }

/-- The two-buffer graph of the adoption scenario. -/
def stAdopt : List Buffer := [bufA100, bufB50]

/-- Buffer A of the layout scenario: 100 bytes, with a non-absolute offset
fixup at offset 20 whose destination is B at offset 0. -/
def layA : Buffer :=
  { id := 0, data := List.replicate 100 0,
    outgoing := [(20, .offsetFix false 0 1)] }

/-- Buffer B of the layout scenario: laid out after A, hence at base 100. -/
def layB : Buffer := { id := 1, data := List.replicate 50 0 }

/-- The buffer list of the layout scenario, in layout order. -/
def stLayout : List Buffer := [layA, layB]

/-- Cycle example: buffer A points at B through a pointer fixup. -/
def cycA : Buffer := { id := 0, data := [0, 0, 0, 0], outgoing := [(0, .pointerFix 0 0 1)] }

/-- Cycle example: buffer B points back at A through a pointer fixup. -/
def cycB : Buffer := { id := 1, data := [0, 0, 0, 0], outgoing := [(0, .pointerFix 0 0 0)] }

/-- The cyclic two-buffer graph. -/
def stCyc : List Buffer := [cycA, cycB]

end SmartBufferModel

namespace SmartBufferModel

/-! Theorems.  First, helper lemmas on the graph representation. -/

theorem findBuffer_map (g : Buffer → Buffer) (hg : ∀ b, (g b).id = b.id)
    (st : List Buffer) (j : Nat) :
    findBuffer (st.map g) j = (findBuffer st j).map g := by
  induction st with
  | nil => rfl
  | cons b rest ih =>
    simp only [List.map_cons, findBuffer, List.find?_cons] at *
    have hpred : ((g b).id == j) = (b.id == j) := by rw [hg]
    rw [hpred]
    cases hb : (b.id == j) <;> simp [ih]

theorem findBuffer_updateBuffer (st : List Buffer) (i j : Nat) (f : Buffer → Buffer)
    (hf : ∀ b, (f b).id = b.id) :
    findBuffer (updateBuffer st i f) j =
      (findBuffer st j).map (fun b => if b.id = i then f b else b) := by
  apply findBuffer_map
  intro b
  by_cases h : b.id = i <;> simp [h, hf]

theorem findBuffer_id {st : List Buffer} {j : Nat} {b : Buffer}
    (h : findBuffer st j = some b) : b.id = j := by
  have := List.find?_some h
  simpa using this

theorem mem_updateBuffer {st : List Buffer} {i : Nat} {f : Buffer → Buffer} {c : Buffer}
    (h : c ∈ updateBuffer st i f) :
    ∃ b, b ∈ st ∧ c = if b.id = i then f b else b := by
  rcases List.mem_map.mp h with ⟨b, hb, hc⟩
  exact ⟨b, hb, hc.symm⟩

theorem mapInsert_mem {m : List (Nat × Fixup)} {k : Nat} {v : Fixup} {p : Nat × Fixup}
    (h : p ∈ mapInsert m k v) : p = (k, v) ∨ p ∈ m := by
  induction m with
  | nil => simpa [mapInsert] using h
  | cons q rest ih =>
    obtain ⟨k', v'⟩ := q
    by_cases hk : k' = k
    · simp only [mapInsert, if_pos hk, List.mem_cons] at h
      rcases h with h | h
      · exact Or.inl h
      · exact Or.inr (List.mem_cons_of_mem _ h)
    · simp only [mapInsert, if_neg hk, List.mem_cons] at h
      rcases h with h | h
      · exact Or.inr (by simp [h])
      · rcases ih h with h1 | h1
        · exact Or.inl h1
        · exact Or.inr (List.mem_cons_of_mem _ h1)

theorem mapLookup_mapInsert (m : List (Nat × Fixup)) (k : Nat) (v : Fixup) :
    mapLookup (mapInsert m k v) k = some v := by
  induction m with
  | nil => simp [mapInsert, mapLookup]
  | cons q rest ih =>
    obtain ⟨k', v'⟩ := q
    by_cases hk : k' = k
    · simp [mapInsert, hk, mapLookup]
    · simp [mapInsert, hk, mapLookup, ih]

theorem mapInsert_last_write (m : List (Nat × Fixup)) (k : Nat) (v1 v2 : Fixup) :
    mapInsert (mapInsert m k v1) k v2 = mapInsert m k v2 := by
  induction m with
  | nil => simp [mapInsert]
  | cons q rest ih =>
    obtain ⟨k', v'⟩ := q
    by_cases hk : k' = k
    · simp [mapInsert, hk]
    · simp [mapInsert, hk, ih]

theorem mapInsert_keys (m : List (Nat × Fixup)) (k : Nat) (v : Fixup) :
    (mapInsert m k v).map Prod.fst =
      if k ∈ m.map Prod.fst then m.map Prod.fst else m.map Prod.fst ++ [k] := by
  induction m with
  | nil => simp [mapInsert]
  | cons q rest ih =>
    obtain ⟨k', v'⟩ := q
    by_cases hk : k' = k
    · simp [mapInsert, hk]
    · have hne : ¬ k = k' := fun h => hk h.symm
      by_cases hm : k ∈ rest.map Prod.fst
      · simp [mapInsert, hk, ih, hm, hne]
      · simp [mapInsert, hk, ih, hm, hne]

theorem mapInsert_keys_nodup (m : List (Nat × Fixup)) (k : Nat) (v : Fixup)
    (h : (m.map Prod.fst).Nodup) : ((mapInsert m k v).map Prod.fst).Nodup := by
  rw [mapInsert_keys]
  by_cases hm : k ∈ m.map Prod.fst
  · simpa [hm] using h
  · simp [hm, List.nodup_append, h]

theorem mem_setInsert_self (s : List (Nat × Nat)) (x : Nat × Nat) :
    x ∈ setInsert s x := by
  by_cases h : x ∈ s <;> simp [setInsert, h]

theorem mem_setInsert_of_mem (s : List (Nat × Nat)) (x y : Nat × Nat) (h : y ∈ s) :
    y ∈ setInsert s x := by
  by_cases hx : x ∈ s <;> simp [setInsert, hx, h]

theorem addFixupTransform_id (srcOff s : Nat) (f : Fixup) (b : Buffer) :
    (addFixupTransform srcOff s f b).id = b.id := by
  unfold addFixupTransform
  cases f.destBuffer <;> by_cases h1 : b.id = s <;> simp [h1] <;> split <;> rfl

theorem AddFixup_eq_map (st : List Buffer) (srcOff s : Nat) (f : Fixup) :
    AddFixup st srcOff s f = st.map (addFixupTransform srcOff s f) := by
  unfold AddFixup
  cases hd : f.destBuffer with
  | none =>
    simp only [updateBuffer]
    apply List.map_congr_left
    intro b _
    simp [addFixupTransform, hd]
  | some d =>
    simp only [updateBuffer, List.map_map]
    apply List.map_congr_left
    intro b _
    by_cases h1 : b.id = s <;> simp [addFixupTransform, hd, h1, Function.comp]

theorem addFixupTransform_outgoing (srcOff s : Nat) (f : Fixup) (b : Buffer) :
    (addFixupTransform srcOff s f b).outgoing =
      if b.id = s then mapInsert b.outgoing srcOff f else b.outgoing := by
  unfold addFixupTransform
  cases f.destBuffer <;> by_cases h1 : b.id = s <;> simp [h1] <;> split <;> rfl

theorem addFixupTransform_incoming_mono (srcOff s : Nat) (f : Fixup) (b : Buffer)
    (x : Nat × Nat) (h : x ∈ b.incoming) :
    x ∈ (addFixupTransform srcOff s f b).incoming := by
  unfold addFixupTransform
  cases f.destBuffer with
  | none => by_cases h1 : b.id = s <;> simp [h1, h]
  | some d =>
    by_cases h1 : b.id = s <;> simp only [h1, if_pos, if_neg, if_true, if_false] <;>
      split <;> simp [mem_setInsert_of_mem, h]

theorem addFixupTransform_incoming_self (srcOff s d : Nat) (f : Fixup) (b : Buffer)
    (hd : f.destBuffer = some d) (hb : b.id = d) :
    (srcOff, s) ∈ (addFixupTransform srcOff s f b).incoming := by
  unfold addFixupTransform
  rw [hd]
  by_cases h1 : b.id = s
  · simp only [if_pos h1]
    simp [hb, mem_setInsert_self]
  · simp only [if_neg h1]
    simp [hb, mem_setInsert_self]

theorem addFixupTransform_incoming_eq_of_no_dest (srcOff s : Nat) (f : Fixup)
    (b : Buffer) (hd : f.destBuffer = none) :
    (addFixupTransform srcOff s f b).incoming = b.incoming := by
  unfold addFixupTransform
  rw [hd]
  by_cases h1 : b.id = s <;> simp [h1]

theorem AddOffsetFixup_success_iff (st : List Buffer) (source destination : Location)
    (absolute : Bool) (st' : List Buffer) :
    AddOffsetFixup st source destination absolute = .success st' ↔
      ∃ d s sb, destination.buffer = some d ∧ (findBuffer st d).isSome = true ∧
        source.buffer = some s ∧ findBuffer st s = some sb ∧
        source.offset < sb.size ∧
        st' = AddFixup st source.offset s (.offsetFix absolute destination.offset d) := by
  unfold AddOffsetFixup
  cases hdb : destination.buffer with
  | none => simp
  | some d =>
    cases hfd : findBuffer st d with
    | none => simp [hfd]
    | some bdd =>
      simp only [hfd, Option.isNone_some, Bool.false_eq_true, if_false, Option.isSome_some]
      cases hsb : source.buffer with
      | none => simp
      | some s =>
        cases hfs : findBuffer st s with
        | none =>
          simp only [hfs]
          constructor
          · intro h; cases h
          · rintro ⟨d1, s1, sb1, hd1, _, hs1, hsb1, _, _⟩
            cases Option.some.inj hd1
            cases Option.some.inj hs1
            rw [hfs] at hsb1
            cases hsb1
        | some sb =>
          simp only [hfs]
          by_cases hr : source.offset < sb.size
          · simp only [if_pos hr]
            constructor
            · intro h
              exact ⟨d, s, sb, rfl, by rw [hfd]; rfl, rfl, hfs, hr,
                (OpOutcome.success.inj h).symm⟩
            · rintro ⟨d1, s1, sb1, hd1, _, hs1, hsb1, _, hst1⟩
              cases Option.some.inj hd1
              cases Option.some.inj hs1
              rw [hfs] at hsb1
              cases Option.some.inj hsb1
              rw [hst1]
          · simp only [if_neg hr]
            constructor
            · intro h; cases h
            · rintro ⟨d1, s1, sb1, hd1, _, hs1, hsb1, hr1, _⟩
              cases Option.some.inj hd1
              cases Option.some.inj hs1
              rw [hfs] at hsb1
              cases Option.some.inj hsb1
              exact absurd hr1 hr

theorem AddPointerFixup_success_iff (st : List Buffer) (source destination : Location)
    (size : Nat) (st' : List Buffer) :
    AddPointerFixup st source destination size = .success st' ↔
      ∃ d s sb, destination.buffer = some d ∧ (findBuffer st d).isSome = true ∧
        source.buffer = some s ∧ findBuffer st s = some sb ∧
        source.offset < sb.size ∧
        st' = AddFixup st source.offset s (.pointerFix size destination.offset d) := by
  unfold AddPointerFixup
  cases hdb : destination.buffer with
  | none => simp
  | some d =>
    cases hfd : findBuffer st d with
    | none => simp [hfd]
    | some bdd =>
      simp only [hfd, Option.isNone_some, Bool.false_eq_true, if_false, Option.isSome_some]
      cases hsb : source.buffer with
      | none => simp
      | some s =>
        cases hfs : findBuffer st s with
        | none =>
          simp only [hfs]
          constructor
          · intro h; cases h
          · rintro ⟨d1, s1, sb1, hd1, _, hs1, hsb1, _, _⟩
            cases Option.some.inj hd1
            cases Option.some.inj hs1
            rw [hfs] at hsb1
            cases hsb1
        | some sb =>
          simp only [hfs]
          by_cases hr : source.offset < sb.size
          · simp only [if_pos hr]
            constructor
            · intro h
              exact ⟨d, s, sb, rfl, by rw [hfd]; rfl, rfl, hfs, hr,
                (OpOutcome.success.inj h).symm⟩
            · rintro ⟨d1, s1, sb1, hd1, _, hs1, hsb1, _, hst1⟩
              cases Option.some.inj hd1
              cases Option.some.inj hs1
              rw [hfs] at hsb1
              cases Option.some.inj hsb1
              rw [hst1]
          · simp only [if_neg hr]
            constructor
            · intro h; cases h
            · rintro ⟨d1, s1, sb1, hd1, _, hs1, hsb1, hr1, _⟩
              cases Option.some.inj hd1
              cases Option.some.inj hs1
              rw [hfs] at hsb1
              cases Option.some.inj hsb1
              exact absurd hr1 hr

theorem AddVTableFixup_success_iff (st : List Buffer) (source : Location)
    (classIndex size : Nat) (st' : List Buffer) :
    AddVTableFixup st source classIndex size = .success st' ↔
      ∃ s sb, source.buffer = some s ∧ findBuffer st s = some sb ∧
        source.offset < sb.size ∧
        st' = AddFixup st source.offset s (.vtableFix classIndex size) := by
  unfold AddVTableFixup
  cases hsb : source.buffer with
  | none => simp
  | some s =>
    cases hfs : findBuffer st s with
    | none =>
      simp only [hfs]
      constructor
      · intro h; cases h
      · rintro ⟨s1, sb1, hs1, hsb1, _, _⟩
        cases Option.some.inj hs1
        rw [hfs] at hsb1
        cases hsb1
    | some sb =>
      simp only [hfs]
      by_cases hr : source.offset < sb.size
      · simp only [if_pos hr]
        constructor
        · intro h
          exact ⟨s, sb, rfl, hfs, hr, (OpOutcome.success.inj h).symm⟩
        · rintro ⟨s1, sb1, hs1, hsb1, _, hst1⟩
          cases Option.some.inj hs1
          rw [hfs] at hsb1
          cases Option.some.inj hsb1
          rw [hst1]
      · simp only [if_neg hr]
        constructor
        · intro h; cases h
        · rintro ⟨s1, sb1, hs1, hsb1, hr1, _⟩
          cases Option.some.inj hs1
          rw [hfs] at hsb1
          cases Option.some.inj hsb1
          exact absurd hr1 hr

theorem AddFixup_preserves_invariant (st : List Buffer) (srcOff s : Nat) (f : Fixup)
    (hinv : IncomingInvariant st)
    (hdest : ∀ d, f.destBuffer = some d → (findBuffer st d).isSome = true) :
    IncomingInvariant (AddFixup st srcOff s f) := by
  intro a' ha' p hp d' hd'
  rw [AddFixup_eq_map] at ha' ⊢
  rcases List.mem_map.mp ha' with ⟨a, ha, hta⟩
  subst hta
  have hid : (addFixupTransform srcOff s f a).id = a.id := addFixupTransform_id _ _ _ _
  rw [addFixupTransform_outgoing] at hp
  have hold : p ∈ a.outgoing →
      ∃ bd, findBuffer (List.map (addFixupTransform srcOff s f) st) d' = some bd ∧
        (p.1, (addFixupTransform srcOff s f a).id) ∈ bd.incoming := by
    intro hpa
    rcases hinv a ha p hpa d' hd' with ⟨bd, hbd, hmem⟩
    refine ⟨addFixupTransform srcOff s f bd, ?_, ?_⟩
    · rw [findBuffer_map _ (addFixupTransform_id srcOff s f) st d', hbd]; rfl
    · rw [hid]
      exact addFixupTransform_incoming_mono srcOff s f bd _ hmem
  by_cases hsrc : a.id = s
  · rw [if_pos hsrc] at hp
    rcases mapInsert_mem hp with hnew | hpa
    · obtain ⟨hp1, hp2⟩ : p.1 = srcOff ∧ p.2 = f := by
        rw [hnew]
        exact ⟨rfl, rfl⟩
      rw [hp2] at hd'
      obtain ⟨bd, hbd⟩ := Option.isSome_iff_exists.mp (hdest d' hd')
      refine ⟨addFixupTransform srcOff s f bd, ?_, ?_⟩
      · rw [findBuffer_map _ (addFixupTransform_id srcOff s f) st d', hbd]; rfl
      · rw [hid, hsrc, hp1]
        exact addFixupTransform_incoming_self srcOff s d' f bd hd' (findBuffer_id hbd)
    · exact hold hpa
  · rw [if_neg hsrc] at hp
    exact hold hp

theorem append_preserves_invariant (st : List Buffer) (i : Nat) (bytes : List Nat)
    (hinv : IncomingInvariant st) :
    IncomingInvariant (updateBuffer st i (fun b => Append b bytes)) := by
  intro a' ha' p hp d hd
  rcases mem_updateBuffer ha' with ⟨a, ha, hta⟩
  have houtg : a'.outgoing = a.outgoing := by rw [hta]; split <;> rfl
  have hid : a'.id = a.id := by rw [hta]; split <;> rfl
  rw [houtg] at hp
  rcases hinv a ha p hp d hd with ⟨bd, hbd, hmem⟩
  refine ⟨if bd.id = i then Append bd bytes else bd, ?_, ?_⟩
  · rw [findBuffer_updateBuffer st i d (fun b => Append b bytes) (fun b => rfl), hbd]
    rfl
  · rw [hid]
    split <;> simpa [Append]

/-! Claim theorems. -/

/-- C10: for every buffer b, GetHeadLocation returns exactly Location(0, b)
and GetCurrentLocation returns exactly Location(GetSize b, b); both are pure
and depend on nothing but the identity (head) and the identity and size
(current), so they inspect and modify no other part of the buffer state. -/
theorem C10_head_current_location (b : Buffer) :
    GetHeadLocation b = ⟨0, some b.id⟩ ∧
    GetCurrentLocation b = ⟨GetSize b, some b.id⟩ ∧
    ∀ b' : Buffer, b.id = b'.id → GetSize b = GetSize b' →
      GetHeadLocation b = GetHeadLocation b' ∧
      GetCurrentLocation b = GetCurrentLocation b' := by
  refine ⟨rfl, rfl, fun b' hid hsz => ⟨?_, ?_⟩⟩
  · simp [GetHeadLocation, hid]
  · simp only [GetCurrentLocation]
    simp only [GetSize] at hsz
    rw [hid, hsz]

/-- C10 witness: the characterization applied to two concrete buffers sharing
id and size but differing elsewhere. -/
theorem C10_head_current_location_witness :
    GetHeadLocation { cexBuf with name := "x" } = GetHeadLocation cexBuf ∧
    GetCurrentLocation { cexBuf with name := "x" } = GetCurrentLocation cexBuf :=
  (C10_head_current_location { cexBuf with name := "x" }).2.2 cexBuf rfl rfl

/-- C9: SetPlatform checks only the pre-existing platform field, so whenever
the current platform is in range it stores any argument p unconditionally,
including p outside the BufferPlatforms enumeration; afterwards
GetPlatformPtrSize and IsPlatformBigEndian index the static platform tables
out of range (modelled as none). -/
theorem C9_setplatform_unvalidated (b : Buffer) (p : Nat) :
    (b.platform < BufferPlatformsCount →
      SetPlatform b p = .ok { b with platform := p }) ∧
    (BufferPlatformsCount ≤ b.platform → SetPlatform b p = .assertViolation) ∧
    (BufferPlatformsCount ≤ p →
      GetPlatformPtrSize { b with platform := p } = none ∧
      IsPlatformBigEndian { b with platform := p } = none) := by
  refine ⟨fun h => ?_, fun h => ?_, fun h => ⟨?_, ?_⟩⟩
  · simp [SetPlatform, h]
  · rw [SetPlatform, if_neg (by omega)]
  · rw [GetPlatformPtrSize]
    exact List.get?_eq_none.mpr (by simpa [s_PointerSizes, BufferPlatformsCount] using h)
  · rw [IsPlatformBigEndian]
    exact List.get?_eq_none.mpr (by simpa [s_BigEndian, BufferPlatformsCount] using h)

/-- C9 witness: a buffer with a valid platform accepts the out-of-range value
5, after which both platform-table reads are out of bounds. -/
theorem C9_setplatform_unvalidated_witness :
    SetPlatform cexBuf 5 = .ok { cexBuf with platform := 5 } ∧
    GetPlatformPtrSize { cexBuf with platform := 5 } = none ∧
    IsPlatformBigEndian { cexBuf with platform := 5 } = none :=
  ⟨(C9_setplatform_unvalidated cexBuf 5).1 (by decide),
   (C9_setplatform_unvalidated cexBuf 5).2.2 (by decide)⟩

/-- C6 counterexample: GetOffsetLocation with an out-of-range offset trips the
NOC_ASSERT; it does not return the recoverable OutOfRange failure the claim
states (the C++ function returns a plain Location and has no failure path). -/
theorem C6_get_offset_location_counterexample :
    GetOffsetLocation cexBuf 1 = .assertViolation ∧
    GetOffsetLocation cexBuf 1 ≠ .outOfRange := by decide

/-- C6 amended: GetOffsetLocation(o) returns Location(o, b) when o is at most
the current size, and asserts (non-recoverably, rather than failing with
OutOfRange) when o exceeds the current size; under the precondition o ≤ size
the assertion branch is unreachable. -/
theorem C6_get_offset_location (b : Buffer) (offset : Nat) :
    (offset ≤ GetSize b → GetOffsetLocation b offset = .ok ⟨offset, some b.id⟩) ∧
    (GetSize b < offset → GetOffsetLocation b offset = .assertViolation) := by
  constructor
  · intro h
    simp only [GetSize] at h
    rw [GetOffsetLocation, if_pos h]
  · intro h
    rw [GetOffsetLocation, if_neg (by simp only [GetSize] at h; omega)]

/-- C6 witness: both branches of the amended statement at concrete inputs. -/
theorem C6_get_offset_location_witness :
    GetOffsetLocation oneByteBuf 1 = .ok ⟨1, some oneByteBuf.id⟩ ∧
    GetOffsetLocation oneByteBuf 2 = .assertViolation :=
  ⟨(C6_get_offset_location oneByteBuf 1).1 (by decide),
   (C6_get_offset_location oneByteBuf 2).2 (by decide)⟩

/-- C7: the outgoing-fixup table keeps at most one fixup per byte offset
(key uniqueness is preserved by insertion), registering a fixup at an offset
that already holds one replaces it, leaving exactly the table that only the
later registration would have produced (last write wins), and AddFixup updates
the source buffer's outgoing table by exactly this insertion. -/
theorem C7_outgoing_last_write_wins (st : List Buffer) (srcOff srcBuf : Nat)
    (f1 f2 : Fixup) (m : List (Nat × Fixup)) (k : Nat) (v : Fixup) :
    mapInsert (mapInsert m srcOff f1) srcOff f2 = mapInsert m srcOff f2 ∧
    ((m.map Prod.fst).Nodup → ((mapInsert m k v).map Prod.fst).Nodup) ∧
    (∀ b, findBuffer st srcBuf = some b →
      ∃ b', findBuffer (AddFixup st srcOff srcBuf f1) srcBuf = some b' ∧
        b'.outgoing = mapInsert b.outgoing srcOff f1) := by
  refine ⟨mapInsert_last_write m srcOff f1 f2,
    fun h => mapInsert_keys_nodup m k v h, ?_⟩
  intro b hb
  rw [AddFixup_eq_map,
    findBuffer_map _ (addFixupTransform_id srcOff srcBuf f1) st srcBuf, hb,
    Option.map_some']
  refine ⟨addFixupTransform srcOff srcBuf f1 b, rfl, ?_⟩
  rw [addFixupTransform_outgoing, if_pos (findBuffer_id hb)]

/-- C7 witness: double registration at offset 3 collapses to the later fixup;
key uniqueness at a concrete table; and AddFixup inserts into the concrete
source buffer's table. -/
theorem C7_outgoing_last_write_wins_witness :
    mapInsert (mapInsert [] 3 (Fixup.vtableFix 1 0)) 3 (Fixup.vtableFix 2 0) =
      mapInsert [] 3 (Fixup.vtableFix 2 0) ∧
    ((mapInsert [(4, Fixup.vtableFix 1 0)] 3 (Fixup.vtableFix 2 0)).map Prod.fst).Nodup ∧
    (∃ b', findBuffer (AddFixup stPair 1 0 (Fixup.pointerFix 0 0 1)) 0 = some b' ∧
      b'.outgoing = mapInsert srcBuf3.outgoing 1 (Fixup.pointerFix 0 0 1)) :=
  ⟨(C7_outgoing_last_write_wins stPair 3 0 (.vtableFix 1 0) (.vtableFix 2 0)
      [] 3 (.vtableFix 2 0)).1,
   (C7_outgoing_last_write_wins stPair 1 0 (.vtableFix 1 0) (.vtableFix 2 0)
      [(4, .vtableFix 1 0)] 3 (.vtableFix 2 0)).2.1 (by decide),
   (C7_outgoing_last_write_wins stPair 1 0 (.pointerFix 0 0 1) (.pointerFix 0 0 1)
      [] 3 (.vtableFix 2 0)).2.2 srcBuf3 (by decide)⟩

/-- C3: AddOffsetFixup returns a failure result (not an assertion, with the
graph unchanged) when the destination's buffer is not a live buffer; trips the
NOC_ASSERT when the destination is live but the source offset is out of range
for its buffer; and returns success exactly when the source was linked to the
destination, in which case the offset fixup is recorded at the source offset
in the source buffer's outgoing table. -/
theorem C3_add_offset_fixup (st : List Buffer) (source destination : Location)
    (absolute : Bool) :
    ((destination.buffer = none ∨
        ∃ d, destination.buffer = some d ∧ findBuffer st d = none) →
      AddOffsetFixup st source destination absolute = .failure st) ∧
    (∀ d s sb, destination.buffer = some d → (findBuffer st d).isSome = true →
      source.buffer = some s → findBuffer st s = some sb →
      sb.size ≤ source.offset →
      AddOffsetFixup st source destination absolute = .assertViolation) ∧
    (∀ st', AddOffsetFixup st source destination absolute = .success st' ↔
      (∃ d s sb, destination.buffer = some d ∧ (findBuffer st d).isSome = true ∧
        source.buffer = some s ∧ findBuffer st s = some sb ∧
        source.offset < sb.size ∧
        st' = AddFixup st source.offset s
          (.offsetFix absolute destination.offset d))) ∧
    (∀ st' s, source.buffer = some s →
      AddOffsetFixup st source destination absolute = .success st' →
      ∃ b' d, destination.buffer = some d ∧ findBuffer st' s = some b' ∧
        mapLookup b'.outgoing source.offset =
          some (.offsetFix absolute destination.offset d)) := by
  refine ⟨?_, ?_, fun st' => AddOffsetFixup_success_iff st source destination absolute st', ?_⟩
  · rintro (hd | ⟨d, hd, hfd⟩)
    · unfold AddOffsetFixup
      rw [hd]
    · unfold AddOffsetFixup
      rw [hd]
      simp [hfd]
  · intro d s sb hd hds hs hsbf hge
    unfold AddOffsetFixup
    rw [hd]
    obtain ⟨bdd, hbdd⟩ := Option.isSome_iff_exists.mp hds
    simp only [hbdd, Option.isNone_some, Bool.false_eq_true, if_false, hs, hsbf]
    rw [if_neg (Nat.not_lt.mpr hge)]
  · intro st' s hs hsucc
    rcases (AddOffsetFixup_success_iff st source destination absolute st').mp hsucc with
      ⟨d, s1, sb, hd, _, hs1, hsbf, _, hst⟩
    rw [hs] at hs1
    cases Option.some.inj hs1
    refine ⟨addFixupTransform source.offset s
      (.offsetFix absolute destination.offset d) sb, d, hd, ?_, ?_⟩
    · rw [hst, AddFixup_eq_map,
        findBuffer_map _ (addFixupTransform_id source.offset s _) st s, hsbf,
        Option.map_some']
    · rw [addFixupTransform_outgoing, if_pos (findBuffer_id hsbf)]
      exact mapLookup_mapInsert sb.outgoing source.offset _

/-- C3 witness: on the concrete two-buffer graph, a null destination yields a
failure result, an out-of-range source offset asserts, and an in-range
registration succeeds with the fixup recorded in the source buffer's table. -/
theorem C3_add_offset_fixup_witness :
    AddOffsetFixup stPair ⟨1, some 0⟩ ⟨0, none⟩ false = .failure stPair ∧
    AddOffsetFixup stPair ⟨5, some 0⟩ ⟨0, some 1⟩ false = .assertViolation ∧
    AddOffsetFixup stPair ⟨1, some 0⟩ ⟨0, some 1⟩ false =
      .success (AddFixup stPair 1 0 (.offsetFix false 0 1)) ∧
    (∃ b' d, (some 1 : Option Nat) = some d ∧
      findBuffer (AddFixup stPair 1 0 (.offsetFix false 0 1)) 0 = some b' ∧
      mapLookup b'.outgoing 1 = some (.offsetFix false 0 d)) :=
  ⟨(C3_add_offset_fixup stPair ⟨1, some 0⟩ ⟨0, none⟩ false).1 (Or.inl rfl),
   (C3_add_offset_fixup stPair ⟨5, some 0⟩ ⟨0, some 1⟩ false).2.1
     1 0 srcBuf3 rfl (by decide) rfl (by decide) (by decide),
   ((C3_add_offset_fixup stPair ⟨1, some 0⟩ ⟨0, some 1⟩ false).2.2.1
     (AddFixup stPair 1 0 (.offsetFix false 0 1))).mpr
     ⟨1, 0, srcBuf3, rfl, by decide, rfl, by decide, by decide, rfl⟩,
   (C3_add_offset_fixup stPair ⟨1, some 0⟩ ⟨0, some 1⟩ false).2.2.2
     (AddFixup stPair 1 0 (.offsetFix false 0 1)) 0 rfl
     (((C3_add_offset_fixup stPair ⟨1, some 0⟩ ⟨0, some 1⟩ false).2.2.1
       (AddFixup stPair 1 0 (.offsetFix false 0 1))).mpr
       ⟨1, 0, srcBuf3, rfl, by decide, rfl, by decide, by decide, rfl⟩)⟩

/-- C4: after every successful AddOffsetFixup or AddPointerFixup from source
offset s in buffer A to a destination in buffer B, B's incoming set contains
the entry (s, A); AddVTableFixup changes no incoming set; and every state
reachable through the registration API satisfies the invariant that each
outgoing fixup's destination buffer records its referrer in its incoming
set. -/
theorem C4_incoming_records_referrers :
    (∀ st, ReachableState st → IncomingInvariant st) ∧
    (∀ st st' (source destination : Location) (absolute : Bool) (s d : Nat)
       (bd' : Buffer),
      AddOffsetFixup st source destination absolute = .success st' →
      source.buffer = some s → destination.buffer = some d →
      findBuffer st' d = some bd' → (source.offset, s) ∈ bd'.incoming) ∧
    (∀ st st' (source destination : Location) (size : Nat) (s d : Nat)
       (bd' : Buffer),
      AddPointerFixup st source destination size = .success st' →
      source.buffer = some s → destination.buffer = some d →
      findBuffer st' d = some bd' → (source.offset, s) ∈ bd'.incoming) ∧
    (∀ st st' (source : Location) (classIndex size j : Nat) (b b' : Buffer),
      AddVTableFixup st source classIndex size = .success st' →
      findBuffer st j = some b → findBuffer st' j = some b' →
      b'.incoming = b.incoming) := by
  have hadd : ∀ (st st' : List Buffer) (srcOff s d : Nat) (f : Fixup) (bd' : Buffer),
      f.destBuffer = some d → (findBuffer st d).isSome = true →
      st' = AddFixup st srcOff s f →
      findBuffer st' d = some bd' → (srcOff, s) ∈ bd'.incoming := by
    intro st st' srcOff s d f bd' hdf hds hst hfind
    obtain ⟨bd, hbd⟩ := Option.isSome_iff_exists.mp hds
    rw [hst, AddFixup_eq_map, findBuffer_map _ (addFixupTransform_id srcOff s f) st d,
      hbd, Option.map_some'] at hfind
    rw [← Option.some.inj hfind]
    exact addFixupTransform_incoming_self srcOff s d f bd hdf (findBuffer_id hbd)
  refine ⟨?_, ?_, ?_, ?_⟩
  · intro st h
    induction h with
    | init st h =>
      intro a ha p hp d hd
      rw [(h a ha).1] at hp
      cases hp
    | addOffset st st' source destination absolute h hs ih =>
      rcases (AddOffsetFixup_success_iff st source destination absolute st').mp hs with
        ⟨d, s, sb, _, hds, _, _, _, hst⟩
      rw [hst]
      refine AddFixup_preserves_invariant st source.offset s _ ih ?_
      intro d1 hd1
      cases Option.some.inj hd1
      exact hds
    | addPointer st st' source destination size h hs ih =>
      rcases (AddPointerFixup_success_iff st source destination size st').mp hs with
        ⟨d, s, sb, _, hds, _, _, _, hst⟩
      rw [hst]
      refine AddFixup_preserves_invariant st source.offset s _ ih ?_
      intro d1 hd1
      cases Option.some.inj hd1
      exact hds
    | addVTable st st' source classIndex size h hs ih =>
      rcases (AddVTableFixup_success_iff st source classIndex size st').mp hs with
        ⟨s, sb, _, _, _, hst⟩
      rw [hst]
      refine AddFixup_preserves_invariant st source.offset s _ ih ?_
      intro d1 hd1
      cases hd1
    | appendData st i bytes h ih =>
      exact append_preserves_invariant st i bytes ih
  · intro st st' source destination absolute s d bd' hsucc hsb hdb hfind
    rcases (AddOffsetFixup_success_iff st source destination absolute st').mp hsucc with
      ⟨d1, s1, sb, hd1, hds, hs1, _, _, hst⟩
    rw [hsb] at hs1
    cases Option.some.inj hs1
    rw [hdb] at hd1
    cases Option.some.inj hd1
    exact hadd st st' source.offset s d
      (.offsetFix absolute destination.offset d) bd' rfl hds hst hfind
  · intro st st' source destination size s d bd' hsucc hsb hdb hfind
    rcases (AddPointerFixup_success_iff st source destination size st').mp hsucc with
      ⟨d1, s1, sb, hd1, hds, hs1, _, _, hst⟩
    rw [hsb] at hs1
    cases Option.some.inj hs1
    rw [hdb] at hd1
    cases Option.some.inj hd1
    exact hadd st st' source.offset s d
      (.pointerFix size destination.offset d) bd' rfl hds hst hfind
  · intro st st' source classIndex size j b b' hsucc hfb hfb'
    rcases (AddVTableFixup_success_iff st source classIndex size st').mp hsucc with
      ⟨s, sb, _, _, _, hst⟩
    rw [hst, AddFixup_eq_map,
      findBuffer_map _ (addFixupTransform_id source.offset s _) st j, hfb,
      Option.map_some'] at hfb'
    rw [← Option.some.inj hfb']
    exact addFixupTransform_incoming_eq_of_no_dest source.offset s _ b rfl

/-- C4 witness: the invariant holds on the concrete reachable two-buffer
graph; a successful concrete AddOffsetFixup records (1, 0) in the destination
buffer's incoming set; a successful concrete AddVTableFixup leaves the
destination buffer's incoming set unchanged. -/
theorem C4_incoming_records_referrers_witness :
    IncomingInvariant stPair ∧
    ((1 : Nat), (0 : Nat)) ∈
      (Buffer.incoming { dstBuf1 with incoming := [(1, 0)] }) ∧
    Buffer.incoming { dstBuf1 with incoming := [] } = dstBuf1.incoming :=
  ⟨C4_incoming_records_referrers.1 stPair (ReachableState.init stPair (by decide)),
   C4_incoming_records_referrers.2.1 stPair
     (AddFixup stPair 1 0 (.offsetFix false 0 1)) ⟨1, some 0⟩ ⟨0, some 1⟩ false
     0 1 { dstBuf1 with incoming := [(1, 0)] } (by decide) rfl rfl (by decide),
   C4_incoming_records_referrers.2.2.2 stPair
     (AddFixup stPair 1 0 (.vtableFix 9 0)) ⟨1, some 0⟩ 9 0 1 dstBuf1
     { dstBuf1 with incoming := [] } (by decide) (by decide) (by decide)⟩

/-- C8: after any finite sequence of Append calls the size equals the size
before the sequence plus the sum of the appended byte counts. -/
theorem C8_append_size_sum (b : Buffer) (calls : List (List Nat)) :
    GetSize (AppendSeq b calls) = GetSize b + (calls.map List.length).sum := by
  induction calls generalizing b with
  | nil => rfl
  | cons c rest ih =>
    have hstep : AppendSeq b (c :: rest) = AppendSeq (Append b c) rest := rfl
    rw [hstep, ih]
    simp [GetSize, Append, Buffer.size]
    omega

/-- C1: for buffers A and B in the graph with B not virtual and the merged
size within A's declared maximum, AdoptBuffer succeeds, A's bytes become its
old bytes followed by B's bytes (so its size is the sum), and every fixup
recorded at offset o in B is re-homed into A at offset oldSize(A) + o. -/
theorem C1_adopt_buffer (st : List Buffer) (aId bId : Nat) (a b : Buffer)
    (ha : findBuffer st aId = some a) (hb : findBuffer st bId = some b)
    (hne : aId ≠ bId) (hvirt : b.virtualMem = false)
    (hmax : ∀ m, a.maxSize = some m → a.size + b.size ≤ m) :
    ∃ st' a', AdoptBuffer st aId bId = .success st' ∧
      findBuffer st' aId = some a' ∧
      a'.data = a.data ++ b.data ∧
      a'.size = a.size + b.size ∧
      ∀ o f, (o, f) ∈ b.outgoing →
        (a.size + o, f.rehomeDest bId aId a.size) ∈ a'.outgoing := by
  have hcheck : (match a.maxSize with
      | some m => decide (m < a.size + b.size)
      | none => false) = false := by
    cases hms : a.maxSize with
    | none => rfl
    | some m => simpa using Nat.not_lt.mpr (hmax m hms)
  have haid := findBuffer_id ha
  simp only [AdoptBuffer, ha, hb, if_neg hne, hvirt, Bool.false_eq_true, if_false, hcheck]
  refine ⟨_, ({ a with
      data := a.data ++ b.data
      outgoing := a.outgoing.map (fun p => (p.1, p.2.rehomeDest bId aId a.size))
          ++ shiftOutgoing b.outgoing a.size bId aId
      incoming := a.incoming.map (fun e => rehomeIncomingEntry e a.size bId aId)
          ++ b.incoming.map (fun e => rehomeIncomingEntry e a.size bId aId) } : Buffer),
    rfl, ?_, rfl, ?_, ?_⟩
  · rw [findBuffer_map _ ?hid st aId, ha, Option.map_some']
    case hid =>
      intro c
      by_cases h1 : c.id = aId <;> by_cases h2 : c.id = bId <;>
        simp [h1, h2, Ne.symm hne]
    simp [haid]
  · simp [Buffer.size]
  · intro o f hof
    apply List.mem_append_right
    exact List.mem_map.mpr ⟨(o, f), hof, rfl⟩

/-- C1 witness: the 100-byte A adopting the 50-byte B yields size 150, with
B's fixup at offset 10 re-homed to A at offset 110. -/
theorem C1_adopt_buffer_witness :
    ∃ st' a', AdoptBuffer stAdopt 0 1 = .success st' ∧
      findBuffer st' 0 = some a' ∧
      a'.data = bufA100.data ++ bufB50.data ∧
      a'.size = 150 ∧
      (110, (Fixup.pointerFix 0 5 0).rehomeDest 1 0 100) ∈ a'.outgoing := by
  have h100 : bufA100.size = 100 := by simp [bufA100, Buffer.size]
  have h50 : bufB50.size = 50 := by simp [bufB50, Buffer.size]
  have h := C1_adopt_buffer stAdopt 0 1 bufA100 bufB50 (by decide) (by decide)
    (by decide) (by decide) (fun m hm => by cases hm)
  rcases h with ⟨st', a', hsucc, hfind, hdata, hsize, hfix⟩
  refine ⟨st', a', hsucc, hfind, hdata, by rw [hsize, h100, h50], ?_⟩
  have := hfix 10 (Fixup.pointerFix 0 5 0) (by simp [bufB50])
  rwa [h100] at this

/-- C2: the flattening pass writes, for every offset fixup registered with
absolute = false, the value (destinationBase + destinationOffset) minus
(sourceBase + sourceOffset) at output position sourceBase + sourceOffset. -/
theorem C2_offset_fixup_resolution (bufs : List Buffer) (b : Buffer)
    (o dOff d sBase dBase : Nat)
    (hb : b ∈ bufs) (hof : (o, Fixup.offsetFix false dOff d) ∈ b.outgoing)
    (hsb : baseOf (layout bufs) b.id = some sBase)
    (hdb : baseOf (layout bufs) d = some dBase) :
    (sBase + o, some (((dBase + dOff : Nat) : Int) - ((sBase + o : Nat) : Int)))
      ∈ flattenWrites bufs := by
  unfold flattenWrites
  apply List.mem_flatten.mpr
  refine ⟨bufferWrites (layout bufs) b, List.mem_map.mpr ⟨b, hb, rfl⟩, ?_⟩
  unfold bufferWrites
  rw [hsb]
  apply List.mem_map.mpr
  refine ⟨(o, Fixup.offsetFix false dOff d), hof, ?_⟩
  simp [resolveFixup, hdb]

/-- C2 witness: the source at A-offset 20, A laid out at base 0, and the
destination at B-offset 0, B laid out at base 100, resolve to 100 - 20 = 80,
written at output position 20. -/
theorem C2_offset_fixup_resolution_witness :
    ((20 : Nat), some (80 : Int)) ∈ flattenWrites stLayout := by
  have h := C2_offset_fixup_resolution stLayout layA 20 0 1 0 100
    (by simp [stLayout]) (by simp [layA]) (by decide) (by decide)
  simpa using h

theorem expand_superset (st : List Buffer) (s : Finset Nat) : s ⊆ expand st s :=
  fun _ hx => Finset.mem_union_left _ hx

theorem expandIter_superset (st : List Buffer) (n : Nat) (s : Finset Nat) :
    s ⊆ expandIter st n s := by
  induction n with
  | zero => exact fun _ hx => hx
  | succ n ih => exact fun x hx => expand_superset st _ (ih hx)

theorem children_subset_idUniverse (st : List Buffer) (i : Nat) :
    (children st i).toFinset ⊆ idUniverse st := by
  unfold children
  cases hf : findBuffer st i with
  | none => intro x hx; simp at hx
  | some b =>
    intro x hx
    rw [List.mem_toFinset] at hx
    unfold idUniverse
    apply Finset.mem_union_right
    rw [List.mem_toFinset]
    exact List.mem_flatten.mpr
      ⟨b.childIds, List.mem_map.mpr ⟨b, List.mem_of_find?_eq_some hf, rfl⟩, hx⟩

theorem expand_subset_universe (st : List Buffer) (s : Finset Nat)
    (h : s ⊆ idUniverse st) : expand st s ⊆ idUniverse st := by
  intro x hx
  rcases Finset.mem_union.mp hx with hx | hx
  · exact h hx
  · rcases Finset.mem_biUnion.mp hx with ⟨i, _, hxi⟩
    exact children_subset_idUniverse st i hxi

theorem expandIter_subset_universe (st : List Buffer) (n : Nat) (s : Finset Nat)
    (h : s ⊆ idUniverse st) : expandIter st n s ⊆ idUniverse st := by
  induction n with
  | zero => exact h
  | succ n ih => exact expand_subset_universe st _ ih

theorem expandIter_fix_or_card (st : List Buffer) (s : Finset Nat) (n : Nat) :
    expand st (expandIter st n s) = expandIter st n s ∨
      n + s.card ≤ (expandIter st n s).card := by
  induction n with
  | zero => right; simp [expandIter]
  | succ n ih =>
    by_cases hfix : expand st (expandIter st n s) = expandIter st n s
    · left
      have heq : expandIter st (n + 1) s = expandIter st n s := hfix
      rw [heq, hfix]
    · rcases ih with hfix0 | hcard
      · exact absurd hfix0 hfix
      · right
        have hss : expandIter st n s ⊂ expand st (expandIter st n s) :=
          Finset.ssubset_iff_subset_ne.mpr
            ⟨expand_superset st _, fun h => hfix h.symm⟩
        have hlt := Finset.card_lt_card hss
        have heq : expandIter st (n + 1) s = expand st (expandIter st n s) := rfl
        rw [heq]
        omega

theorem expandIter_fixpoint (st : List Buffer) (s : Finset Nat)
    (hs : s ⊆ idUniverse st) :
    expand st (expandIter st ((idUniverse st).card + 1) s) =
      expandIter st ((idUniverse st).card + 1) s := by
  rcases expandIter_fix_or_card st s ((idUniverse st).card + 1) with h | h
  · exact h
  · have hsub := expandIter_subset_universe st ((idUniverse st).card + 1) s hs
    have hle := Finset.card_le_card hsub
    omega

theorem expandIter_stable (st : List Buffer) (s : Finset Nat) (n : Nat)
    (hfix : expand st (expandIter st n s) = expandIter st n s) :
    ∀ k, expandIter st (n + k) s = expandIter st n s := by
  intro k
  induction k with
  | zero => rfl
  | succ k ih =>
    have heq : expandIter st (n + (k + 1)) s = expand st (expandIter st (n + k) s) := rfl
    rw [heq, ih, hfix]

theorem expandIter_sound (st : List Buffer) (start : Nat) (n : Nat) :
    ∀ x ∈ expandIter st n (children st start).toFinset, Reaches st start x := by
  induction n with
  | zero =>
    intro x hx
    exact Reaches.direct (List.mem_toFinset.mp hx)
  | succ n ih =>
    intro x hx
    have hx' : x ∈ expand st (expandIter st n (children st start).toFinset) := hx
    rcases Finset.mem_union.mp hx' with h | h
    · exact ih x h
    · rcases Finset.mem_biUnion.mp h with ⟨i, hi, hxi⟩
      exact Reaches.step (ih i hi) (List.mem_toFinset.mp hxi)

theorem reaches_mem_of_closed (st : List Buffer) (start : Nat) (S : Finset Nat)
    (hseed : ∀ x ∈ children st start, x ∈ S)
    (hclosed : expand st S = S) :
    ∀ j, Reaches st start j → j ∈ S := by
  intro j hj
  induction hj with
  | direct hj => exact hseed _ hj
  | step h1 h2 ih =>
    rw [← hclosed]
    exact Finset.mem_union_right _
      (Finset.mem_biUnion.mpr ⟨_, ih, List.mem_toFinset.mpr h2⟩)

/-- C5: CollectChildren adds to the given set exactly the buffers reachable
directly or transitively from the starting buffer's outgoing fixups; the
de-duplicated traversal terminates at a fixpoint, so iterating any further
adds nothing; and the concrete two-buffer pointer cycle collects to the
2-element set of the two buffer ids rather than looping forever. -/
theorem C5_collect_children :
    (∀ (st : List Buffer) (start : Nat) (acc : Finset Nat) (j : Nat),
      j ∈ CollectChildren st start acc ↔ j ∈ acc ∨ Reaches st start j) ∧
    (∀ (st : List Buffer) (start : Nat) (extra : Nat),
      expandIter st ((idUniverse st).card + 1 + extra)
          (children st start).toFinset =
        expandIter st ((idUniverse st).card + 1) (children st start).toFinset) ∧
    CollectChildren stCyc 0 ∅ = {0, 1} := by
  refine ⟨?_, ?_, ?_⟩
  · intro st start acc j
    unfold CollectChildren
    have hx : j ∈ expandIter st ((idUniverse st).card + 1)
        (children st start).toFinset ↔ Reaches st start j := by
      constructor
      · exact expandIter_sound st start _ j
      · refine reaches_mem_of_closed st start _ ?_
          (expandIter_fixpoint st _ (children_subset_idUniverse st start)) j
        intro x hxc
        exact expandIter_superset st _ _ (List.mem_toFinset.mpr hxc)
    rw [Finset.mem_union, hx]
  · intro st start extra
    exact expandIter_stable st (children st start).toFinset _
      (expandIter_fixpoint st _ (children_subset_idUniverse st start)) extra
  · decide

end SmartBufferModel
